import Mathlib

/-!
Shallow embedding of `.github/get_predefined_de/main.py` (the design-example
aggregation pipeline) and proofs about its behaviour.

JSON values are modelled by `JVal` (numbers as `Int`; the configuration data
this tool consumes uses only integral numbers).  Python dictionaries are
modelled as ordered association lists with string keys, matching the
insertion-order semantics of `dict`.  Python's logging side channel is
modelled explicitly as a list of records, and the repository's
`ExitOnExceptionHandler` (which raises `SystemExit` whenever a record of
severity ERROR or CRITICAL is emitted) is modelled by making every
ERROR-level emission terminate the computation.
-/

set_option autoImplicit false

/-- A JSON value, as produced by `json.loads`. -/
inductive JVal where
  | null
  | bool (b : Bool)
  | num (n : Int)
  | str (s : String)
  | arr (xs : List JVal)
  | obj (fields : List (String × JVal))

/-- First value stored under key `k` (Python dictionaries have unique keys,
so this is the value of `d[k]` when present). -/
def dictGet {α : Type} (k : String) : List (String × α) → Option α
  | [] => none
  | kv :: rest => if kv.1 == k then some kv.2 else dictGet k rest

/-- Python `d[k] = v`: replace the value in place when the key is present
(keeping its position), otherwise append the new binding. -/
def dictSet {α : Type} (k : String) (v : α) : List (String × α) → List (String × α)
  | [] => [(k, v)]
  | kv :: rest => if kv.1 == k then (k, v) :: rest else kv :: dictSet k v rest

mutual
/-- Python `==` on parsed JSON values: structural equality, with dictionaries
compared by key set (insertion order is irrelevant) and Python's
`True == 1` / `False == 0` quirk for booleans. -/
def pyEq : JVal → JVal → Bool
  | JVal.null, JVal.null => true
  | JVal.bool a, JVal.bool b => a == b
  | JVal.bool a, JVal.num n => if a then n == 1 else n == 0
  | JVal.num n, JVal.bool a => if a then n == 1 else n == 0
  | JVal.num a, JVal.num b => a == b
  | JVal.str a, JVal.str b => a == b
  | JVal.arr a, JVal.arr b => pyEqList a b
  | JVal.obj a, JVal.obj b => a.length == b.length && pyEqSub a b
  | _, _ => false

/-- Elementwise Python `==` on lists. -/
def pyEqList : List JVal → List JVal → Bool
  | [], [] => true
  | x :: xs, y :: ys => pyEq x y && pyEqList xs ys
  | _, _ => false

/-- Every binding of the first dictionary is present (by key) in the second
with a Python-equal value. -/
def pyEqSub : List (String × JVal) → List (String × JVal) → Bool
  | [], _ => true
  | kv :: rest, ys =>
    (match dictGet kv.1 ys with
     | some w => pyEq kv.2 w
     | none => false) && pyEqSub rest ys
end

/-- Python truthiness of a parsed JSON value. -/
def pyTruthy : JVal → Bool
  | JVal.null => false
  | JVal.bool b => b
  | JVal.num n => !(n == 0)
  | JVal.str s => !s.isEmpty
  | JVal.arr xs => !xs.isEmpty
  | JVal.obj fs => !fs.isEmpty

/-- Python `len`; `Except.error` models the `TypeError` raised on unsized
values. -/
def pyLen : JVal → Except Unit Nat
  | JVal.arr xs => Except.ok xs.length
  | JVal.obj fs => Except.ok fs.length
  | JVal.str s => Except.ok s.length
  | _ => Except.error ()

/-- Python iteration over a parsed JSON value (lists yield elements,
dictionaries yield their keys, strings their characters); `Except.error`
models the `TypeError` raised on non-iterables. -/
def pyIter : JVal → Except Unit (List JVal)
  | JVal.arr xs => Except.ok xs
  | JVal.obj fs => Except.ok (fs.map (fun kv => JVal.str kv.1))
  | JVal.str s => Except.ok (s.data.map (fun c => JVal.str (String.mk [c])))
  | _ => Except.error ()

/-- Contiguous-substring test on lists of characters (Python's `in` on
strings). -/
def containsSub (sub : List Char) : List Char → Bool
  | [] => sub.isEmpty
  | c :: rest => sub.isPrefixOf (c :: rest) || containsSub sub rest

/-- Python `k in v` for a string `k`: key test on dictionaries, membership on
lists, substring test on strings; `Except.error` models the `TypeError`
raised on other values. -/
def pyContains (k : String) (v : JVal) : Except Unit Bool :=
  match v with
  | JVal.obj fs => Except.ok (fs.any (fun kv => kv.1 == k))
  | JVal.arr xs => Except.ok (xs.any (fun x => pyEq x (JVal.str k)))
  | JVal.str s => Except.ok (containsSub k.data s.data)
  | _ => Except.error ()

/-- Python `v[k]` for a string `k`: dictionary lookup; `Except.error` models
the `KeyError`/`TypeError` raised when the key is absent or `v` is not a
dictionary. -/
def pyGetItem (v : JVal) (k : String) : Except Unit JVal :=
  match v with
  | JVal.obj fs =>
    match dictGet k fs with
    | some x => Except.ok x
    | none => Except.error ()
  | _ => Except.error ()

/-- Python `item[k] = v` on a parsed JSON dictionary; other values are
returned unchanged (the pipeline only ever assigns into dictionaries). -/
def jSet (k : String) (v : JVal) : JVal → JVal
  | JVal.obj fs => JVal.obj (dictSet k v fs)
  | other => other

/-- Keys of a field list are pairwise distinct (true of every dictionary
obtained from `json.loads`). -/
def keysNodup : List (String × JVal) → Bool
  | [] => true
  | kv :: rest => !(rest.any (fun kv2 => kv2.1 == kv.1)) && keysNodup rest

mutual
/-- Well-formedness of a `JVal` as the image of a Python JSON value: every
object has pairwise-distinct keys. -/
def wfJ : JVal → Bool
  | JVal.arr xs => wfArr xs
  | JVal.obj fs => keysNodup fs && wfFields fs
  | _ => true

/-- All elements well-formed. -/
def wfArr : List JVal → Bool
  | [] => true
  | x :: xs => wfJ x && wfArr xs

/-- All field values well-formed. -/
def wfFields : List (String × JVal) → Bool
  | [] => true
  | kv :: rest => wfJ kv.2 && wfFields rest
end

/-! ## Embedding of `main.py` -/

/-- `is_github(url)`: `"github.com" in url` (substring test on the whole URL
string, `main.py` line 29). -/
def is_github (url : String) : Bool :=
  containsSub "github.com".data url.data

/-- `metadata_formatize(metadata)` (`main.py` line 33): wrap the aggregated
item list as the catalog dictionary. -/
def metadata_formatize (metadata : List JVal) : List (String × JVal) :=
  [("num", JVal.num (metadata.length : Int)), ("designs", JVal.arr metadata)]

/-- Python `{**content, **controller_content}`: keys of `content` keep their
positions (values overridden by `over` where the key collides), new keys of
`over` are appended in order. -/
def mergeFields (base over : List (String × JVal)) : List (String × JVal) :=
  base.map (fun kv =>
    match dictGet kv.1 over with
    | some v => (kv.1, v)
    | none => kv)
  ++ over.filter (fun kv => (dictGet kv.1 base).isNone)

/-- `add_controller(options, content)` (`main.py` line 51): when the
controller file exists its parsed object is shallow-merged over the catalog;
otherwise the catalog is returned unchanged (an INFO record is logged). The
`Option` argument models existence plus parsed content of the file. -/
def add_controller (controller : Option (List (String × JVal)))
    (content : List (String × JVal)) : List (String × JVal) :=
  match controller with
  | some c => mergeFields content c
  | none => content

/-- Severity of a logging record; `ExitOnExceptionHandler` terminates the
process on `error` (covering Python's ERROR and CRITICAL). -/
inductive Severity where
  | info
  | warning
  | error
deriving DecidableEq

/-- A record emitted on the logging side channel. -/
structure LogRec where
  sev : Severity
  msg : String
deriving DecidableEq

def infoRec (m : String) : LogRec := ⟨Severity.info, m⟩
def warnRec (m : String) : LogRec := ⟨Severity.warning, m⟩
def errRec (m : String) : LogRec := ⟨Severity.error, m⟩

/-- `replace_if_diff(options, all_list_json)` (`main.py` line 67): apply the
controller override, then write the merged object only when the output file
is absent or its parsed content differs (Python `==`) from the merged
object.  `existing` models the parsed content of the output file when it
exists; the first component of the result is the content written (`none`
means no write happened), the second the log records emitted. -/
def replace_if_diff (controller : Option (List (String × JVal)))
    (existing : Option JVal) (content : List (String × JVal)) :
    Option JVal × List LogRec :=
  let logs := [infoRec "----------------------------------------",
               infoRec "Checking the content of the output for updates..."]
  let logs := logs ++ (match controller with
    | none => [infoRec "Controller not found."]
    | some _ => [])
  let merged := JVal.obj (add_controller controller content)
  match existing with
  | some e =>
    if pyEq e merged then
      (none, logs ++ [infoRec "The content is up-to-date. No changes are required. Exiting."])
    else
      (some merged,
       logs ++ [infoRec "Differences detected between the existing file and the generated content.",
                infoRec "Successfully wrote content."])
  | none =>
    (some merged,
     logs ++ [infoRec "The file does not exist. Creating a new file...",
              infoRec "Successfully wrote content."])

/-- Everything after the first occurrence of `sep`, or the whole list when
`sep` does not occur: Python `s.split(sep, 1)[-1]`. -/
def afterFirstAux (sep : List Char) : List Char → Option (List Char)
  | [] => none
  | c :: rest =>
    if sep.isPrefixOf (c :: rest) then some ((c :: rest).drop sep.length)
    else afterFirstAux sep rest

def afterFirst (sep cs : List Char) : List Char :=
  (afterFirstAux sep cs).getD cs

/-- Python `s.replace(old, new)` for a non-empty `old`: scan left to right,
replacing non-overlapping occurrences.  The fuel argument (instantiated
with the input length) bounds the recursion; every step consumes at least
one character.  (The pipeline only ever replaces non-empty patterns: the
literal `blob/` and a regex group matched by `+`.) -/
def replaceAllAux (old new : List Char) : Nat → List Char → List Char
  | 0, cs => cs
  | _ + 1, [] => []
  | fuel + 1, c :: rest =>
    if old.isPrefixOf (c :: rest) && !old.isEmpty then
      new ++ replaceAllAux old new fuel ((c :: rest).drop old.length)
    else c :: replaceAllAux old new fuel rest

/-- Python `s.replace(old, new)` on strings. -/
def replaceAll (s old new : String) : String :=
  String.mk (replaceAllAux old.data new.data s.data.length s.data)

/-- `convert_to_raw_github_url(github_url)` (`main.py` line 99): take
everything after the first `github.com/`, strip an embedded credential up to
the first `@`, delete every occurrence of `blob/`, and prefix the raw
content host. -/
def convert_to_raw_github_url (github_url : String) : String :=
  let parts := afterFirst "github.com/".data github_url.data
  let parts := afterFirst "@".data parts
  let parts := replaceAll (String.mk parts) "blob/" ""
  "https://raw.githubusercontent.com/" ++ parts

/-- The per-match replacement of `use_raw_image_url` (`main.py` line 128):
given the whole matched tag (`group(0)`) and the captured `src` value
(`group(1)`), rewrite the URL inside the tag exactly when it contains
`github.com` and the repository id as substrings. -/
def replace_with_raw (repo_url tag img_url : String) : String :=
  if is_github img_url && containsSub repo_url.data img_url.data then
    replaceAll tag img_url (convert_to_raw_github_url img_url)
  else tag

/-- The literal `src="` of the image pattern. -/
def srcLit : List Char := ['s', 'r', 'c', '=', '"']

/-- The literal `<img ` of the image pattern. -/
def imgLit : List Char := ['<', 'i', 'm', 'g', ' ']

/-- Match `([^"]+)"` at the start of the input: the (greedy, necessarily
maximal) non-empty run of non-quote characters followed by the closing
quote.  Returns the captured group and the rest. -/
def matchQuoted (cs : List Char) : Option (List Char × List Char) :=
  match cs.span (fun c => !(c == '"')) with
  | (g, '"' :: rest) => if g.isEmpty then none else some (g, rest)
  | _ => none

/-- Match `[^>]*>` at the start of the input (greedy, necessarily maximal).
Returns the rest after the `>`. -/
def matchToGt (cs : List Char) : Option (List Char) :=
  match cs.span (fun c => !(c == '>')) with
  | (_, '>' :: rest) => some rest
  | _ => none

/-- Match `src="([^"]+)"[^>]*>` at the start of the input. -/
def matchSrcTail (cs : List Char) : Option (List Char × List Char) :=
  if srcLit.isPrefixOf cs then
    match matchQuoted (cs.drop srcLit.length) with
    | some (g, r) =>
      match matchToGt r with
      | some r2 => some (g, r2)
      | none => none
    | none => none
  else none

/-- Match `[^>]*src="([^"]+)"[^>]*>` with the backtracking order of a greedy
`[^>]*`: prefer consuming another non-`>` character (i.e. a later `src="`)
and fall back to matching `src="` at the current position. -/
def matchBody : List Char → Option (List Char × List Char)
  | [] => matchSrcTail []
  | c :: rest =>
    if c == '>' then matchSrcTail (c :: rest)
    else
      match matchBody rest with
      | some r => some r
      | none => matchSrcTail (c :: rest)

/-- Match the full pattern `<img [^>]*src="([^"]+)"[^>]*>` at the start of
the input; returns the captured group and the rest of the input. -/
def matchImgTag (cs : List Char) : Option (List Char × List Char) :=
  if imgLit.isPrefixOf cs then
    matchBody (cs.drop imgLit.length)
  else none

/-- `re.sub` scanning for `use_raw_image_url`: find the leftmost match, emit
its replacement, continue after it; non-matching characters pass through.
The fuel argument (instantiated with the input length) bounds the
recursion; every step consumes at least one character. -/
def subAux (repo : String) : Nat → List Char → List Char
  | 0, cs => cs
  | _ + 1, [] => []
  | fuel + 1, c :: rest =>
    match matchImgTag (c :: rest) with
    | some (g, rem) =>
      let tag := String.mk ((c :: rest).take ((c :: rest).length - rem.length))
      (replace_with_raw repo tag (String.mk g)).data ++ subAux repo fuel rem
    | none => c :: subAux repo fuel rest

/-- `use_raw_image_url(rich_description, repo_url)` (`main.py` line 124). -/
def use_raw_image_url (rich_description repo_url : String) : String :=
  String.mk (subAux repo_url rich_description.data.length rich_description.data)

/-- The warning emitted by `get_design_examples_list` on an unrecognised
shape. -/
def invalidFormatWarn : LogRec :=
  warnRec "The data format is invalid. Skipping this entry..."

/-- `get_design_examples_list(data)` (`main.py` line 144): the tolerant
item-list extraction.  Note the control flow of the source: when `"data" in
data` holds but `data["data"]` has no `"designs"` key, the input is
returned unchanged (no warning, and the top-level `"designs"` key is never
consulted).  `Except.error` models an uncaught Python `TypeError`. -/
def get_design_examples_list (data : JVal) : Except Unit (JVal × List LogRec) :=
  match pyContains "data" data with
  | Except.error _ => Except.error ()
  | Except.ok true =>
    match pyGetItem data "data" with
    | Except.error _ => Except.error ()
    | Except.ok inner =>
      match pyContains "designs" inner with
      | Except.error _ => Except.error ()
      | Except.ok true =>
        match pyGetItem inner "designs" with
        | Except.error _ => Except.error ()
        | Except.ok d => Except.ok (d, [])
      | Except.ok false => Except.ok (data, [])
  | Except.ok false =>
    match pyContains "designs" data with
    | Except.error _ => Except.error ()
    | Except.ok true =>
      match pyGetItem data "designs" with
      | Except.error _ => Except.error ()
      | Except.ok d => Except.ok (d, [])
    | Except.ok false => Except.ok (JVal.arr [], [invalidFormatWarn])

/-- A character allowed in a URL scheme after the initial letter. -/
def schemeChar (c : Char) : Bool :=
  c.isAlphanum || c == '+' || c == '-' || c == '.'

/-- Models `urllib.parse.urlparse(url).path` for URLs without `;`-parameters:
drop the fragment (from the first `#`), strip a syntactically valid scheme
(a leading letter followed by letters/digits/`+`/`-`/`.` up to the first
`:`), strip a `//`-introduced network location (up to the next `/` or `?`),
and drop the query (from the first `?`). -/
def urlparse_path (url : String) : String :=
  let cs := url.data.takeWhile (fun c => !(c == '#'))
  let cs :=
    match cs.span (fun c => !(c == ':')) with
    | (before, ':' :: rest) =>
      match before with
      | [] => cs
      | b :: bs => if b.isAlpha && bs.all schemeChar then rest else cs
    | _ => cs
  let cs :=
    match cs with
    | '/' :: '/' :: rest => rest.dropWhile (fun c => !(c == '/' || c == '?'))
    | _ => cs
  String.mk (cs.takeWhile (fun c => !(c == '?')))

/-- Python `s.split(sep)` for a single-character separator. -/
def splitChar (sep : Char) : List Char → List (List Char)
  | [] => [[]]
  | c :: rest =>
    if c == sep then [] :: splitChar sep rest
    else
      match splitChar sep rest with
      | [] => [[c]]
      | p :: ps => (c :: p) :: ps

/-- The source descriptor built by `extract_url_details` (`main.py`
line 283). -/
structure UrlDetail where
  url : String
  headers : List (String × String)
  repo_owner : String
  repo_name : String
deriving DecidableEq

/-- One step of `extract_url_details`: parse the URL, strip leading slashes
from the path, split on `/`, and take the first two segments when there are
at least two (segments may be empty strings). -/
def extract_url_detail (url : String) : UrlDetail :=
  let path_parts := splitChar '/' ((urlparse_path url).data.dropWhile (fun c => c == '/'))
  if 2 ≤ path_parts.length then
    { url := url, headers := [],
      repo_owner := String.mk (path_parts.getD 0 []),
      repo_name := String.mk (path_parts.getD 1 []) }
  else
    { url := url, headers := [], repo_owner := "", repo_name := "" }

/-- `extract_url_details(urls)` (`main.py` line 283). -/
def extract_url_details (urls : List String) : List UrlDetail :=
  urls.map extract_url_detail

/-- The loop body of `get_unique_urls` (`main.py` line 330) with the list of
already-seen raw URLs made explicit. -/
def get_unique_urls_aux (temp : List String) : List UrlDetail → List UrlDetail
  | [] => []
  | item :: rest =>
    if temp.contains item.url then get_unique_urls_aux temp rest
    else item :: get_unique_urls_aux (temp ++ [item.url]) rest

/-- `get_unique_urls(url_details)` (`main.py` line 330): stable
first-occurrence deduplication keyed by the raw URL string. -/
def get_unique_urls (url_details : List UrlDetail) : List UrlDetail :=
  get_unique_urls_aux [] url_details

/-- A release asset as returned by the GitHub releases API (`{name, url}`). -/
structure Asset where
  name : String
  url : String

/-- A GitHub release: tag plus asset list.  The model restricts upstream
responses to the well-formed shape the GitHub API documents. -/
structure Release where
  tag_name : String
  assets : List Asset

/-- The outcome of one HTTP GET: transport failure, a body that is not
JSON, or a parsed JSON body. -/
inductive HttpResult where
  | netErr
  | notJson
  | json (v : JVal)

/-- The network environment a run executes against. -/
structure World where
  /-- Response to the non-GitHub GET of a source URL. -/
  fetch : String → HttpResult
  /-- `GET /repos/{owner}/{name}/releases`: `none` models a
  `RequestException`. -/
  releases : String → String → Option (List Release)
  /-- Response to downloading a release asset by its asset URL. -/
  assetFetch : String → HttpResult

/-- How a modelled run terminates early: `exit` is the `SystemExit(-1)`
raised by `ExitOnExceptionHandler` on an ERROR record, `crash` an uncaught
Python exception (e.g. `TypeError`/`KeyError`). -/
inductive HaltKind where
  | exit
  | crash

/-- An early termination together with the log records emitted before it. -/
structure Halt where
  kind : HaltKind
  logs : List LogRec

/-- The list comprehension of `process_non_github_url`:
`{**item, "Q_DOWNLOAD_URL": item["downloadUrl"]}` for every item.
`Except.error` models the `TypeError`/`KeyError` raised when an item is not
a dictionary or lacks `downloadUrl`. -/
def stampDownloadUrl : List JVal → Except Unit (List JVal)
  | [] => Except.ok []
  | item :: rest =>
    match pyGetItem item "downloadUrl" with
    | Except.error _ => Except.error ()
    | Except.ok dl =>
      match stampDownloadUrl rest with
      | Except.error _ => Except.error ()
      | Except.ok rest2 => Except.ok (jSet "Q_DOWNLOAD_URL" dl item :: rest2)

/-- `process_non_github_url(url_detail)` (`main.py` line 248), with the GET
response supplied as an argument.  Every path that would emit an ERROR
record terminates with `HaltKind.exit`; the function returns normally only
with a non-empty item list. -/
def process_non_github_url (url : String) (resp : HttpResult) :
    Except Halt (List JVal × List LogRec) :=
  match resp with
  | HttpResult.netErr =>
    Except.error ⟨HaltKind.exit, [errRec ("Failed to fetch URL " ++ url)]⟩
  | HttpResult.notJson =>
    Except.error ⟨HaltKind.exit, [errRec ("URL " ++ url ++ " did not return a valid JSON response.")]⟩
  | HttpResult.json data =>
    match get_design_examples_list data with
    | Except.error _ => Except.error ⟨HaltKind.crash, []⟩
    | Except.ok (ljr, glogs) =>
      if pyTruthy ljr then
        match pyLen ljr with
        | Except.error _ => Except.error ⟨HaltKind.crash, glogs⟩
        | Except.ok _ =>
          let logs := glogs ++ [infoRec "Found design examples in this non GitHub URL"]
          match pyIter ljr with
          | Except.error _ => Except.error ⟨HaltKind.crash, logs⟩
          | Except.ok items =>
            match stampDownloadUrl items with
            | Except.error _ => Except.error ⟨HaltKind.crash, logs⟩
            | Except.ok items2 => Except.ok (items2, logs)
      else
        Except.error ⟨HaltKind.exit, glogs ++ [errRec ("Unable to find any design examples in URL " ++ url)]⟩

/-- Python `x in design_package_maps` for a string-keyed dictionary: a
`TypeError` for unhashable keys (lists/dicts), otherwise a key test that can
only succeed for strings. -/
def pyDictMem (key : JVal) (m : List (String × String)) : Except Unit Bool :=
  match key with
  | JVal.arr _ => Except.error ()
  | JVal.obj _ => Except.error ()
  | JVal.str s => Except.ok (m.any (fun kv => kv.1 == s))
  | _ => Except.ok false

/-- The per-item enrichment of `process_github_url` (`main.py` lines
222-234): resolve `downloadUrl` against the asset map (warning and empty
string when absent), stamp the release tag, and rewrite the rich
description's image URLs.  The error payload carries the records logged
before an uncaught exception. -/
def enrich_item (maps : List (String × String)) (relTag repoId : String)
    (item : JVal) : Except (List LogRec) (JVal × List LogRec) :=
  match pyGetItem item "downloadUrl" with
  | Except.error _ => Except.error []
  | Except.ok dl =>
    match pyDictMem dl maps with
    | Except.error _ => Except.error []
    | Except.ok b =>
      let step :=
        if b then
          match dl with
          | JVal.str s =>
            (jSet "Q_DOWNLOAD_URL" (JVal.str ((dictGet s maps).getD "")) item,
             ([] : List LogRec))
          | _ => (item, [])
        else
          (jSet "Q_DOWNLOAD_URL" (JVal.str "") item,
           [warnRec ("Missing asset in release " ++ relTag)])
      let item3 := jSet "Q_GITHUB_RELEASE" (JVal.str relTag) step.1
      match pyGetItem item3 "rich_description" with
      | Except.ok (JVal.str rd) =>
        Except.ok (jSet "rich_description" (JVal.str (use_raw_image_url rd repoId)) item3, step.2)
      | _ => Except.error step.2

/-- `enrich_item` over a release's item list, accumulating logs in order. -/
def enrich_items (maps : List (String × String)) (relTag repoId : String) :
    List JVal → Except (List LogRec) (List JVal × List LogRec)
  | [] => Except.ok ([], [])
  | item :: rest =>
    match enrich_item maps relTag repoId item with
    | Except.error l => Except.error l
    | Except.ok (it, l1) =>
      match enrich_items maps relTag repoId rest with
      | Except.error l2 => Except.error (l1 ++ l2)
      | Except.ok (its, l2) => Except.ok (it :: its, l1 ++ l2)

/-- Download and parse a `list.json` asset (`main.py` lines 202-212): a
transport failure or non-JSON body is logged at ERROR (terminating the
run); a successfully parsed body goes through the tolerant extraction. -/
def fetchListJson (w : World) (relTag assetUrl : String) (logs : List LogRec) :
    Except Halt (JVal × List LogRec) :=
  match w.assetFetch assetUrl with
  | HttpResult.netErr =>
    Except.error ⟨HaltKind.exit, logs ++ [errRec ("Unable to fetch list.json from release " ++ relTag)]⟩
  | HttpResult.notJson =>
    Except.error ⟨HaltKind.exit, logs ++ [errRec ("Unable to fetch list.json from release " ++ relTag)]⟩
  | HttpResult.json data =>
    match get_design_examples_list data with
    | Except.error _ => Except.error ⟨HaltKind.crash, logs⟩
    | Except.ok (d, glogs) => Except.ok (d, logs ++ glogs)

/-- The asset loop of `process_github_url` (`main.py` lines 188-214): every
asset is recorded in `design_package_maps`; encountering an asset literally
named `list.json` immediately downloads and extracts it (a later duplicate
overwrites the extraction result). -/
def scan_assets (w : World) (relTag : String) :
    List Asset → List (String × String) → JVal → List LogRec →
    Except Halt (List (String × String) × JVal × List LogRec)
  | [], maps, ljr, logs => Except.ok (maps, ljr, logs)
  | a :: rest, maps, ljr, logs =>
    let maps2 := dictSet a.name a.url maps
    if a.name == "list.json" then
      match fetchListJson w relTag a.url logs with
      | Except.error h => Except.error h
      | Except.ok (d, logs2) => scan_assets w relTag rest maps2 d logs2
    else scan_assets w relTag rest maps2 ljr logs

/-- One release of `process_github_url` (`main.py` lines 183-240): scan the
assets, and if a truthy item list was extracted, enrich every item;
otherwise the release contributes nothing and a warning is logged. -/
def process_release (w : World) (repoId : String) (rel : Release)
    (logs : List LogRec) : Except Halt (List JVal × List LogRec) :=
  match scan_assets w rel.tag_name rel.assets [] (JVal.arr []) logs with
  | Except.error h => Except.error h
  | Except.ok (maps, ljr, logs2) =>
    if pyTruthy ljr then
      match pyLen ljr with
      | Except.error _ => Except.error ⟨HaltKind.crash, logs2⟩
      | Except.ok _ =>
        let logs3 := logs2 ++ [infoRec ("Found design examples in release " ++ rel.tag_name)]
        match pyIter ljr with
        | Except.error _ => Except.error ⟨HaltKind.crash, logs3⟩
        | Except.ok items =>
          match enrich_items maps rel.tag_name repoId items with
          | Except.error el => Except.error ⟨HaltKind.crash, logs3 ++ el⟩
          | Except.ok (items2, el) => Except.ok (items2, logs3 ++ el)
    else
      Except.ok ([], logs2 ++ [warnRec ("Unable to read list.json in release. Skipping...")])

/-- The release loop of `process_github_url`, concatenating per-release
item lists in release order. -/
def process_releases (w : World) (repoId : String) :
    List Release → List JVal → List LogRec → Except Halt (List JVal × List LogRec)
  | [], acc, logs => Except.ok (acc, logs)
  | rel :: rest, acc, logs =>
    match process_release w repoId rel logs with
    | Except.error h => Except.error h
    | Except.ok (items, logs2) => process_releases w repoId rest (acc ++ items) logs2

/-- `process_github_url(url_detail)` (`main.py` line 173): fetch the release
list (a transport failure is logged at ERROR and terminates the run),
process every release, and log at ERROR (terminating the run) when no
release contributed any item. -/
def process_github_url (w : World) (d : UrlDetail) :
    Except Halt (List JVal × List LogRec) :=
  match w.releases d.repo_owner d.repo_name with
  | none =>
    Except.error ⟨HaltKind.exit,
      [errRec ("Failed to fetch releases for repository " ++ d.repo_owner ++ "/" ++ d.repo_name)]⟩
  | some rels =>
    match process_releases w (d.repo_owner ++ "/" ++ d.repo_name) rels [] [] with
    | Except.error h => Except.error h
    | Except.ok (items, logs) =>
      if items.isEmpty then
        Except.error ⟨HaltKind.exit, logs ++ [errRec ("Unable to read any list.json in URL " ++ d.url)]⟩
      else Except.ok (items, logs)

/-- The routing of `get_design_examples` (`main.py` lines 350-353): a URL is
sent down the GitHub release path exactly when `is_github` holds of it. -/
def processUrl (w : World) (d : UrlDetail) : Except Halt (List JVal × List LogRec) :=
  if is_github d.url then process_github_url w d
  else process_non_github_url d.url (w.fetch d.url)

/-- The source loop of `get_design_examples` (`main.py` lines 346-359):
process each descriptor in order, stamp `Q_VALIDATED` on every returned
item, and accumulate items and logs.  A halt propagates immediately:
remaining descriptors are not processed. -/
def runUrlsAux (w : World) : List UrlDetail → List JVal → List LogRec →
    Except Halt (List JVal × List LogRec)
  | [], acc, logs => Except.ok (acc, logs)
  | d :: rest, acc, logs =>
    let logs2 := logs ++ [infoRec "----------------------------------------",
                          infoRec ("Processing URL " ++ d.url)]
    match processUrl w d with
    | Except.error h => Except.error ⟨h.kind, logs2 ++ h.logs⟩
    | Except.ok (items, plogs) =>
      let items2 := items.map (jSet "Q_VALIDATED" (JVal.bool true))
      runUrlsAux w rest (acc ++ items2) (logs2 ++ plogs)

/-- The observable outcome of one run: the content written to the output
file (if any), the log records emitted, and how the run terminated
(`none` = normal completion). -/
structure RunOutcome where
  written : Option JVal
  logs : List LogRec
  halted : Option HaltKind

/-- `get_design_examples(options)` (`main.py` line 340), parameterised by
the network environment, the parsed controller file (if present), the
parsed existing output file (if present), and the configured source URLs:
resolve and deduplicate the URLs, process each source, and either persist
the consolidated catalog or log the zero-items condition at ERROR
(terminating the run with no write). -/
def get_design_examples (w : World) (controller : Option (List (String × JVal)))
    (existing : Option JVal) (urls : List String) : RunOutcome :=
  let details := get_unique_urls (extract_url_details urls)
  match runUrlsAux w details [] [] with
  | Except.error h => ⟨none, h.logs, some h.kind⟩
  | Except.ok (all, logs) =>
    let logs := logs ++ [infoRec "----------------------------------------"]
    if all.isEmpty then
      ⟨none, logs ++ [errRec "No list.json files were found."], some HaltKind.exit⟩
    else
      let logs := logs ++ [infoRec "Consolidating all list.json files...",
                           infoRec "Total consolidated design examples"]
      let step := replace_if_diff controller existing (metadata_formatize all)
      ⟨step.1, logs ++ step.2, none⟩

/-! ## Dictionary lemmas -/

theorem dictGet_append {α : Type} (k : String) (a b : List (String × α)) :
    dictGet k (a ++ b) = (dictGet k a).orElse (fun _ => dictGet k b) := by
  induction a with
  | nil => rfl
  | cons kv rest ih =>
    by_cases h : kv.1 == k
    · simp [dictGet, h]
    · simp [dictGet, h, ih]

theorem dictGet_filter_congr {α : Type} (k : String) (p q : String × α → Bool)
    (l : List (String × α)) (h : ∀ e : String × α, e.1 = k → p e = q e) :
    dictGet k (l.filter p) = dictGet k (l.filter q) := by
  induction l with
  | nil => rfl
  | cons e rest ih =>
    by_cases hk : e.1 == k
    · have : p e = q e := h e (by simpa using hk)
      cases hp : p e <;> rw [this] at hp <;>
        simp [List.filter, hp, this ▸ hp, dictGet, hk, ih]
    · cases hp : p e <;> cases hq : q e <;>
        simp [List.filter, hp, hq, dictGet, hk, ih]

theorem dictGet_mergeFields (k : String) (base over : List (String × JVal)) :
    dictGet k (mergeFields base over) =
      (dictGet k over).orElse (fun _ => dictGet k base) := by
  induction base with
  | nil =>
    simp only [mergeFields, List.map_nil, List.nil_append]
    rw [show (List.filter (fun kv => (dictGet kv.1 ([] : List (String × JVal))).isNone) over)
          = over.filter (fun _ => true) from by simp [dictGet], List.filter_true]
    cases dictGet k over <;> simp [dictGet, Option.orElse]
  | cons kv base ih =>
    by_cases h : kv.1 == k
    · have hk : kv.1 = k := by simpa using h
      simp only [mergeFields, List.map_cons, List.cons_append, dictGet]
      subst hk
      cases hov : dictGet kv.1 over <;> simp [hov, dictGet, Option.orElse]
    · simp only [mergeFields, List.map_cons, List.cons_append]
      have hkey : (match dictGet kv.1 over with
          | some v => (kv.1, v)
          | none => kv).1 = kv.1 := by
        cases dictGet kv.1 over <;> rfl
      rw [show dictGet k ((match dictGet kv.1 over with
            | some v => (kv.1, v)
            | none => kv) ::
            (base.map (fun kv => match dictGet kv.1 over with
              | some v => (kv.1, v)
              | none => kv) ++
             over.filter (fun e => (dictGet e.1 (kv :: base)).isNone)))
          = dictGet k (base.map (fun kv => match dictGet kv.1 over with
              | some v => (kv.1, v)
              | none => kv) ++
             over.filter (fun e => (dictGet e.1 (kv :: base)).isNone)) from by
        cases hov : dictGet kv.1 over <;> simp [dictGet, hov, hkey, h]]
      rw [dictGet_append, dictGet_filter_congr k _ (fun e => (dictGet e.1 base).isNone) over
        (by
          intro e he
          have : (kv.1 == e.1) = false := by
            subst he
            simpa using h
          simp [dictGet, this])]
      rw [← dictGet_append, ← mergeFields, ih, dictGet]
      simp [h]

/-! ## Claim theorems: controller merge, catalog invariant, routing -/

/-- C7: applying the controller override is a shallow top-level merge — for
every key, the persisted value is the override's value when the override
binds the key and the catalog's value otherwise; absence of the controller
file leaves the catalog unchanged; in particular an override
`{"num": 999}` over a catalog with `num: 5` yields `num = 999`. -/
theorem controller_shallow_merge (fs os : List (String × JVal)) :
    (∀ k, dictGet k (add_controller (some os) fs) =
      (dictGet k os).orElse (fun _ => dictGet k fs))
    ∧ add_controller none fs = fs
    ∧ dictGet "num" (add_controller (some [("num", JVal.num 999)])
        [("num", JVal.num 5), ("designs", JVal.arr [])]) = some (JVal.num 999) := by
  refine ⟨fun k => ?_, rfl, rfl⟩
  simpa [add_controller] using dictGet_mergeFields k fs os

/-- C6: the catalog built by the merger from any aggregated item list
satisfies the invariant `num == length(designs)`. -/
theorem catalog_num_invariant (items : List JVal) :
    ∃ (n : Int) (ds : List JVal),
      dictGet "num" (metadata_formatize items) = some (JVal.num n)
      ∧ dictGet "designs" (metadata_formatize items) = some (JVal.arr ds)
      ∧ n = (ds.length : Int) := by
  refine ⟨(items.length : Int), items, ?_, ?_, rfl⟩ <;> rfl

theorem containsSub_iff (sub s : List Char) :
    containsSub sub s = true ↔ ∃ pre post, s = pre ++ sub ++ post := by
  induction s with
  | nil =>
    simp only [containsSub, List.isEmpty_iff]
    constructor
    · rintro rfl
      exact ⟨[], [], rfl⟩
    · rintro ⟨pre, post, h⟩
      rcases List.append_eq_nil.mp (List.append_eq_nil.mp h.symm).1 with ⟨-, h2⟩
      exact h2
  | cons c rest ih =>
    simp only [containsSub, Bool.or_eq_true, ih]
    constructor
    · rintro (h | ⟨pre, post, rfl⟩)
      · rcases List.isPrefixOf_iff_prefix.mp h with ⟨t, ht⟩
        exact ⟨[], t, ht.symm⟩
      · exact ⟨c :: pre, post, rfl⟩
    · rintro ⟨pre, post, h⟩
      cases pre with
      | nil =>
        refine Or.inl (List.isPrefixOf_iff_prefix.mpr ⟨post, ?_⟩)
        simpa using h.symm
      | cons c2 pre2 =>
        refine Or.inr ⟨pre2, post, ?_⟩
        have h2 : c :: rest = c2 :: (pre2 ++ sub ++ post) := by simpa using h
        injection h2

/-- C10: a configured URL is routed to the GitHub release-fetching path
exactly when the string `github.com` occurs anywhere as a contiguous
substring of the whole URL string; every other URL goes to the non-GitHub
fetcher. -/
theorem routing_substring (w : World) (d : UrlDetail) :
    (is_github d.url = true ↔ ∃ pre post, d.url.data = pre ++ "github.com".data ++ post)
    ∧ (is_github d.url = true → processUrl w d = process_github_url w d)
    ∧ (is_github d.url = false → processUrl w d = process_non_github_url d.url (w.fetch d.url)) := by
  refine ⟨containsSub_iff _ _, fun h => ?_, fun h => ?_⟩ <;> simp [processUrl, h]

/-- A minimal network environment used to instantiate run-level theorems. -/
def w0 : World where
  fetch := fun _ => HttpResult.netErr
  releases := fun _ _ => none
  assetFetch := fun _ => HttpResult.netErr

/-- Witness for `routing_substring` at concrete URLs: `github.com` occurring
only in the query string still routes to the GitHub path, and a
`gitlab.com` URL routes to the non-GitHub fetcher. -/
theorem routing_substring_witness :
    processUrl w0 ⟨"https://example.com/a?x=github.com", [], "a", ""⟩
        = process_github_url w0 ⟨"https://example.com/a?x=github.com", [], "a", ""⟩
    ∧ processUrl w0 ⟨"https://gitlab.com/o/r", [], "o", "r"⟩
        = process_non_github_url "https://gitlab.com/o/r" (w0.fetch "https://gitlab.com/o/r") :=
  ⟨(routing_substring w0 ⟨"https://example.com/a?x=github.com", [], "a", ""⟩).2.1 (by decide),
   (routing_substring w0 ⟨"https://gitlab.com/o/r", [], "o", "r"⟩).2.2 (by decide)⟩


/-! ## Deduplication lemmas -/

theorem contains_append_single (t : List String) (u s : String) :
    (t ++ [u]).contains s = (t.contains s || s == u) := by
  induction t with
  | nil =>
    show List.elem s [u] = (List.elem s [] || s == u)
    cases h : s == u <;> simp [List.elem, h]
  | cons c rest ih =>
    show List.elem s (c :: (rest ++ [u])) = (List.elem s (c :: rest) || s == u)
    cases h : s == c
    · simpa [List.elem, h] using ih
    · simp [List.elem, h]

theorem get_unique_urls_aux_cons (t : List String) (d : UrlDetail) (rest : List UrlDetail) :
    get_unique_urls_aux t (d :: rest)
      = if t.contains d.url then get_unique_urls_aux t rest
        else d :: get_unique_urls_aux (t ++ [d.url]) rest := rfl

theorem get_unique_urls_aux_sublist (l : List UrlDetail) :
    ∀ t, List.Sublist (get_unique_urls_aux t l) l := by
  induction l with
  | nil => intro t; exact List.Sublist.refl _
  | cons d rest ih =>
    intro t
    rw [get_unique_urls_aux_cons]
    by_cases h : t.contains d.url = true
    · rw [if_pos h]; exact (ih t).cons d
    · rw [if_neg h]; exact (ih (t ++ [d.url])).cons₂ d

theorem get_unique_urls_aux_congr (l : List UrlDetail) :
    ∀ t1 t2, (∀ s, t1.contains s = t2.contains s) →
      get_unique_urls_aux t1 l = get_unique_urls_aux t2 l := by
  induction l with
  | nil => intro _ _ _; rfl
  | cons d rest ih =>
    intro t1 t2 h
    rw [get_unique_urls_aux_cons, get_unique_urls_aux_cons, h d.url]
    by_cases hc : t2.contains d.url = true
    · rw [if_pos hc, if_pos hc, ih t1 t2 h]
    · rw [if_neg hc, if_neg hc, ih (t1 ++ [d.url]) (t2 ++ [d.url])
        (fun s => by rw [contains_append_single, contains_append_single, h s])]

theorem get_unique_urls_aux_seen (l : List UrlDetail) :
    ∀ t u, get_unique_urls_aux (t ++ [u]) l
      = get_unique_urls_aux t (l.filter (fun e => !(e.url == u))) := by
  induction l with
  | nil => intro t u; rfl
  | cons d rest ih =>
    intro t u
    rw [get_unique_urls_aux_cons, contains_append_single]
    by_cases hdu : (d.url == u) = true
    · have h1 : (t.contains d.url || (d.url == u)) = true := by
        rw [hdu]; exact Bool.or_true _
      rw [if_pos h1, ih t u, List.filter_cons, if_neg (by rw [hdu]; simp)]
    · have hne : (d.url == u) = false := by simpa using hdu
      rw [hne, Bool.or_false]
      by_cases hc : t.contains d.url = true
      · rw [if_pos hc, ih t u, List.filter_cons, if_pos (by rw [hne]; rfl),
            get_unique_urls_aux_cons, if_pos hc]
      · rw [if_neg hc,
            get_unique_urls_aux_congr rest (t ++ [u] ++ [d.url]) (t ++ [d.url] ++ [u])
              (fun s => by
                rw [contains_append_single, contains_append_single,
                    contains_append_single, contains_append_single]
                cases t.contains s <;> cases s == u <;> cases s == d.url <;> rfl),
            ih (t ++ [d.url]) u, List.filter_cons, if_pos (by rw [hne]; rfl),
            get_unique_urls_aux_cons, if_neg hc]

theorem get_unique_urls_cons (d : UrlDetail) (l : List UrlDetail) :
    get_unique_urls (d :: l)
      = d :: get_unique_urls (l.filter (fun e => !(e.url == d.url))) := by
  show (if ([] : List String).contains d.url then get_unique_urls_aux [] l
        else d :: get_unique_urls_aux ([] ++ [d.url]) l) = _
  rw [if_neg (by simp [List.contains, List.elem]), get_unique_urls_aux_seen]
  rfl

theorem mem_aux_not_seen (l : List UrlDetail) :
    ∀ t d, d ∈ get_unique_urls_aux t l → t.contains d.url = false := by
  induction l with
  | nil => intro t d h; simp [get_unique_urls_aux] at h
  | cons e rest ih =>
    intro t d h
    rw [get_unique_urls_aux_cons] at h
    by_cases hc : t.contains e.url = true
    · rw [if_pos hc] at h
      exact ih t d h
    · rw [if_neg hc] at h
      rcases List.mem_cons.mp h with rfl | h2
      · simpa using hc
      · have h3 := ih _ d h2
        rw [contains_append_single] at h3
        exact (Bool.or_eq_false_iff.mp h3).1

theorem get_unique_urls_aux_nodup (l : List UrlDetail) :
    ∀ t, ((get_unique_urls_aux t l).map (fun e => e.url)).Nodup := by
  induction l with
  | nil => intro t; simp [get_unique_urls_aux]
  | cons e rest ih =>
    intro t
    rw [get_unique_urls_aux_cons]
    by_cases hc : t.contains e.url = true
    · rw [if_pos hc]; exact ih t
    · rw [if_neg hc, List.map_cons, List.nodup_cons]
      refine ⟨fun hmem => ?_, ih _⟩
      rcases List.mem_map.mp hmem with ⟨d, hd, hurl⟩
      have h3 := mem_aux_not_seen rest _ d hd
      rw [contains_append_single, hurl] at h3
      simp at h3

theorem get_unique_urls_eq_self (l : List UrlDetail)
    (h : (l.map (fun e => e.url)).Nodup) : get_unique_urls l = l := by
  induction l with
  | nil => rfl
  | cons d rest ih =>
    rw [List.map_cons, List.nodup_cons] at h
    rw [get_unique_urls_cons,
        show rest.filter (fun e => !(e.url == d.url)) = rest from
          List.filter_eq_self.mpr (fun e he => by
            have : e.url ≠ d.url := fun hh =>
              h.1 (List.mem_map.mpr ⟨e, he, hh⟩)
            simpa using this),
        ih h.2]

/-- First-occurrence deduplication of a raw URL list (the list one obtains
by deduplicating the configured URLs before resolving them). -/
def dedupeStr : List String → List String
  | [] => []
  | u :: rest => u :: dedupeStr (rest.filter (fun s => !(s == u)))
termination_by l => l.length
decreasing_by exact Nat.lt_succ_of_le (List.length_filter_le _ _)

theorem extract_url_detail_url (u : String) : (extract_url_detail u).url = u := by
  simp only [extract_url_detail]
  split <;> rfl

theorem get_unique_urls_extract (urls : List String) :
    get_unique_urls (extract_url_details urls) = extract_url_details (dedupeStr urls) := by
  induction urls using dedupeStr.induct with
  | case1 => simp [dedupeStr, extract_url_details, get_unique_urls, get_unique_urls_aux]
  | case2 u rest ih =>
    show get_unique_urls (extract_url_detail u :: extract_url_details rest) = _
    rw [get_unique_urls_cons, extract_url_detail_url]
    rw [show (extract_url_details rest).filter (fun e => !(e.url == u))
          = extract_url_details (rest.filter (fun s => !(s == u))) from by
      unfold extract_url_details
      rw [List.filter_map]
      exact congrArg _ (List.filter_congr (fun s _ => by
        rw [Function.comp_apply, extract_url_detail_url]))]
    rw [ih]
    conv_rhs => rw [dedupeStr]
    rfl

/-- C9: source deduplication is stable (the output is a subsequence of the
input), keyed by raw URL (output URLs are pairwise distinct), keeps exactly
the first descriptor of each URL (the recurrence in the third conjunct
characterises the function completely), is idempotent, and commutes with
resolution: resolving a URL list with duplicates and deduplicating yields
the resolution of the deduplicated URL list. -/
theorem dedupe_properties (l : List UrlDetail) (d : UrlDetail) (urls : List String) :
    List.Sublist (get_unique_urls l) l
    ∧ ((get_unique_urls l).map (fun e => e.url)).Nodup
    ∧ get_unique_urls (d :: l)
        = d :: get_unique_urls (l.filter (fun e => !(e.url == d.url)))
    ∧ get_unique_urls (get_unique_urls l) = get_unique_urls l
    ∧ get_unique_urls (extract_url_details urls) = extract_url_details (dedupeStr urls) :=
  ⟨get_unique_urls_aux_sublist l [], get_unique_urls_aux_nodup l [],
   get_unique_urls_cons d l,
   get_unique_urls_eq_self _ (get_unique_urls_aux_nodup l []),
   get_unique_urls_extract urls⟩

/-! ## Reflexivity of Python equality on well-formed values -/

theorem any_key_eq_false {α : Type} (fs : List (String × α)) (k : String)
    (h : fs.any (fun kv2 => kv2.1 == k) = false) :
    ∀ kv : String × α, kv ∈ fs → (kv.1 == k) = false := by
  intro kv hkv
  by_contra hne
  have : fs.any (fun kv2 => kv2.1 == k) = true :=
    List.any_eq_true.mpr ⟨kv, hkv, by simpa using hne⟩
  rw [h] at this
  exact Bool.false_ne_true this

theorem dictGet_self (fs : List (String × JVal)) (h : keysNodup fs = true) :
    ∀ kv : String × JVal, kv ∈ fs → dictGet kv.1 fs = some kv.2 := by
  induction fs with
  | nil => intro kv hkv; simp at hkv
  | cons e rest ih =>
    intro kv hkv
    rw [keysNodup] at h
    have h1 : rest.any (fun kv2 => kv2.1 == e.1) = false := by
      rcases Bool.and_eq_true_iff.mp h with ⟨ha, -⟩
      simpa using ha
    have h2 : keysNodup rest = true := (Bool.and_eq_true_iff.mp h).2
    rcases List.mem_cons.mp hkv with rfl | hm
    · show dictGet kv.1 (kv :: rest) = some kv.2
      simp [dictGet]
    · show dictGet kv.1 (e :: rest) = some kv.2
      have hne : (e.1 == kv.1) = false := by
        have := any_key_eq_false rest e.1 h1 kv hm
        have hx : kv.1 ≠ e.1 := by simpa using this
        simpa using hx.symm
      rw [dictGet, if_neg (by simp [hne])]
      exact ih h2 kv hm

theorem wfFields_mem (fs : List (String × JVal)) (h : wfFields fs = true) :
    ∀ kv : String × JVal, kv ∈ fs → wfJ kv.2 = true := by
  induction fs with
  | nil => intro kv hkv; simp at hkv
  | cons e rest ih =>
    intro kv hkv
    rw [wfFields] at h
    rcases Bool.and_eq_true_iff.mp h with ⟨h1, h2⟩
    rcases List.mem_cons.mp hkv with rfl | hm
    · exact h1
    · exact ih h2 kv hm

theorem pyEqSub_of_forall (fs ys : List (String × JVal))
    (h : ∀ kv : String × JVal, kv ∈ fs →
      ∃ w, dictGet kv.1 ys = some w ∧ pyEq kv.2 w = true) :
    pyEqSub fs ys = true := by
  induction fs with
  | nil => rfl
  | cons kv rest ih =>
    rcases h kv (List.mem_cons_self _ _) with ⟨w, hw, he⟩
    simp only [pyEqSub, hw, he, Bool.true_and]
    exact ih (fun kv2 hkv2 => h kv2 (List.mem_cons_of_mem _ hkv2))

mutual
theorem pyEq_refl (v : JVal) (h : wfJ v = true) : pyEq v v = true :=
  match v, h with
  | JVal.null, _ => rfl
  | JVal.bool b, _ => by simp [pyEq]
  | JVal.num n, _ => by simp [pyEq]
  | JVal.str s, _ => by simp [pyEq]
  | JVal.arr xs, h => pyEqList_refl xs (by simpa [wfJ] using h)
  | JVal.obj fs, h => by
    have hw : (keysNodup fs && wfFields fs) = true := by simpa [wfJ] using h
    have hsub := pyEqFields_refl fs (Bool.and_eq_true_iff.mp hw).1 (Bool.and_eq_true_iff.mp hw).2
    simp [pyEq, hsub]
termination_by sizeOf v
decreasing_by
  all_goals simp_wf

theorem pyEqList_refl (xs : List JVal) (h : wfArr xs = true) : pyEqList xs xs = true :=
  match xs, h with
  | [], _ => rfl
  | x :: rest, h => by
    have hw : (wfJ x && wfArr rest) = true := by simpa [wfArr] using h
    have h1 := pyEq_refl x (Bool.and_eq_true_iff.mp hw).1
    have h2 := pyEqList_refl rest (Bool.and_eq_true_iff.mp hw).2
    simp [pyEqList, h1, h2]
termination_by sizeOf xs
decreasing_by
  all_goals simp_wf
  all_goals omega

theorem pyEqFields_refl (fs : List (String × JVal)) (h1 : keysNodup fs = true)
    (h2 : wfFields fs = true) : pyEqSub fs fs = true :=
  pyEqSub_of_forall fs fs (fun kv hkv =>
    ⟨kv.2, dictGet_self fs h1 kv hkv, pyEq_refl kv.2 (wfFields_mem fs h2 kv hkv)⟩)
termination_by sizeOf fs
decreasing_by
  all_goals simp_wf
  have hlt : sizeOf kv < sizeOf fs := List.sizeOf_lt_of_mem hkv
  have h3 : sizeOf kv.2 ≤ sizeOf kv := by
    cases kv with
    | mk a b =>
      simp only [Prod.mk.sizeOf_spec]
      omega
  omega
end

/-- C4: the persist step writes iff no prior output file exists or the
existing parsed content is not Python-equal to the merged object (the
controller override having been applied); what is written is exactly the
merged object; and when the existing file already holds the (well-formed)
merged object no write occurs, so a second run with unchanged upstream data
performs no rewrite. -/
theorem persist_writes_iff (controller : Option (List (String × JVal)))
    (existing : Option JVal) (content : List (String × JVal)) :
    ((replace_if_diff controller existing content).1.isSome = true ↔
      existing = none ∨ ∃ e, existing = some e
        ∧ pyEq e (JVal.obj (add_controller controller content)) = false)
    ∧ (∀ j, (replace_if_diff controller existing content).1 = some j →
        j = JVal.obj (add_controller controller content))
    ∧ (wfJ (JVal.obj (add_controller controller content)) = true →
        (replace_if_diff controller
          (some (JVal.obj (add_controller controller content))) content).1 = none) := by
  refine ⟨?_, ?_, fun hwf => ?_⟩
  · cases existing with
    | none => simp [replace_if_diff]
    | some e =>
      cases h : pyEq e (JVal.obj (add_controller controller content)) with
      | true => simp [replace_if_diff, h]
      | false => simp [replace_if_diff, h]
  · intro j hj
    cases existing with
    | none =>
      simp [replace_if_diff] at hj
      exact hj.symm
    | some e =>
      cases h : pyEq e (JVal.obj (add_controller controller content)) with
      | true => simp [replace_if_diff, h] at hj
      | false =>
        simp [replace_if_diff, h] at hj
        exact hj.symm
  · simp [replace_if_diff, pyEq_refl _ hwf]

/-- Witness for `persist_writes_iff`: with controller `{"num": 999}` over an
empty aggregation, running the persist step again over the previously
written content performs no write. -/
theorem persist_writes_iff_witness :
    (replace_if_diff (some [("num", JVal.num 999)])
      (some (JVal.obj (add_controller (some [("num", JVal.num 999)])
        (metadata_formatize []))))
      (metadata_formatize [])).1 = none :=
  (persist_writes_iff (some [("num", JVal.num 999)])
    (some (JVal.obj (add_controller (some [("num", JVal.num 999)])
      (metadata_formatize [])))) (metadata_formatize [])).2.2
    (by simp [add_controller, mergeFields, metadata_formatize, dictGet,
      wfJ, keysNodup, wfFields, wfArr])

/-! ## The tolerant item-list extraction (claim C1) -/

theorem any_eq_dictGet_isSome {α : Type} (fs : List (String × α)) (k : String) :
    fs.any (fun kv => kv.1 == k) = (dictGet k fs).isSome := by
  induction fs with
  | nil => rfl
  | cons kv rest ih =>
    cases h : kv.1 == k <;> simp [dictGet, h, ih, List.any_cons]

/-- The input value `{"data": {}, "designs": [{"a": 1}]}`. -/
def gdelCounterInput : JVal :=
  JVal.obj [("data", JVal.obj []), ("designs", JVal.arr [JVal.obj [("a", JVal.num 1)]])]

/-- C1 counterexample: on an input whose `data` value lacks a `designs`
key, `get_design_examples_list` returns the whole input unchanged and
reports no warning, although the claimed rule dictates the top-level
`designs` list (the `elif` of the source is never reached once `data` is
present). -/
theorem extraction_counterexample :
    get_design_examples_list gdelCounterInput = Except.ok (gdelCounterInput, [])
    ∧ gdelCounterInput ≠ JVal.arr [JVal.obj [("a", JVal.num 1)]] :=
  ⟨rfl, fun h => JVal.noConfusion h⟩

/-- C1 amended: for an object input `v`, the extraction returns
`v.data.designs` when `v.data` is an object with a `designs` key; it
returns `v` itself, unchanged and without warning, when `v.data` is an
object without a `designs` key (a top-level `designs` key is ignored);
when `v` has no `data` key it returns `v.designs` when present, and
otherwise the empty list with a warning. -/
theorem extraction_amended (fs : List (String × JVal)) :
    (∀ (ds : List (String × JVal)) (g : JVal),
      dictGet "data" fs = some (JVal.obj ds) → dictGet "designs" ds = some g →
        get_design_examples_list (JVal.obj fs) = Except.ok (g, []))
    ∧ (∀ ds : List (String × JVal),
      dictGet "data" fs = some (JVal.obj ds) → dictGet "designs" ds = none →
        get_design_examples_list (JVal.obj fs) = Except.ok (JVal.obj fs, []))
    ∧ (dictGet "data" fs = none → ∀ g, dictGet "designs" fs = some g →
        get_design_examples_list (JVal.obj fs) = Except.ok (g, []))
    ∧ (dictGet "data" fs = none → dictGet "designs" fs = none →
        get_design_examples_list (JVal.obj fs)
          = Except.ok (JVal.arr [], [invalidFormatWarn])) := by
  refine ⟨fun ds g h1 h2 => ?_, fun ds h1 h2 => ?_, fun h1 g h2 => ?_, fun h1 h2 => ?_⟩ <;>
    simp [get_design_examples_list, pyContains, pyGetItem,
      any_eq_dictGet_isSome, h1, h2]

/-- Witness for `extraction_amended`: input
`{"data": {"designs": [7]}}` yields `[7]`. -/
theorem extraction_amended_witness :
    get_design_examples_list
        (JVal.obj [("data", JVal.obj [("designs", JVal.arr [JVal.num 7])])])
      = Except.ok (JVal.arr [JVal.num 7], []) :=
  (extraction_amended [("data", JVal.obj [("designs", JVal.arr [JVal.num 7])])]).1
    [("designs", JVal.arr [JVal.num 7])] (JVal.arr [JVal.num 7]) rfl rfl

/-! ## Run-level behaviour (claims C2 and C5) -/

/-- C2 amended: when a source's fetch or parse fails, the failure is logged
at ERROR severity and `ExitOnExceptionHandler` terminates the run
immediately: the failing source contributes zero items, the remaining
sources are not processed (the outcome does not depend on them), and the
run ends with no write. -/
theorem source_failure_amended :
    (∀ (w : World) (d : UrlDetail) (rest : List UrlDetail) (acc : List JVal)
        (logs : List LogRec) (h : Halt), processUrl w d = Except.error h →
      runUrlsAux w (d :: rest) acc logs
        = Except.error ⟨h.kind,
            logs ++ [infoRec "----------------------------------------",
                     infoRec ("Processing URL " ++ d.url)] ++ h.logs⟩)
    ∧ (∀ (w : World) (controller : Option (List (String × JVal)))
        (existing : Option JVal) (urls : List String) (h : Halt),
        runUrlsAux w (get_unique_urls (extract_url_details urls)) [] []
          = Except.error h →
        get_design_examples w controller existing urls
          = ⟨none, h.logs, some h.kind⟩) := by
  constructor
  · intro w d rest acc logs h hp
    simp only [runUrlsAux, hp]
  · intro w controller existing urls h hr
    simp only [get_design_examples, hr]

/-- A network environment in which the GET of the first configured source
fails and the second returns a well-formed document with one item. -/
def w2 : World where
  fetch := fun url =>
    if url == "http://a.example/list" then HttpResult.netErr
    else HttpResult.json (JVal.obj [("designs", JVal.arr [JVal.obj
      [("downloadUrl", JVal.str "x"), ("rich_description", JVal.str "d")]])])
  releases := fun _ _ => none
  assetFetch := fun _ => HttpResult.netErr

/-- Witness for `source_failure_amended` at a concrete two-source run whose
first source's GET fails. -/
theorem source_failure_amended_witness :
    runUrlsAux w2 [⟨"http://a.example/list", [], "", ""⟩,
        ⟨"http://b.example/list", [], "", ""⟩] [] []
      = Except.error ⟨HaltKind.exit,
          ([] : List LogRec)
            ++ [infoRec "----------------------------------------",
                infoRec ("Processing URL " ++ "http://a.example/list")]
            ++ [errRec ("Failed to fetch URL " ++ "http://a.example/list")]⟩ :=
  source_failure_amended.1 w2 ⟨"http://a.example/list", [], "", ""⟩
    [⟨"http://b.example/list", [], "", ""⟩] [] []
    ⟨HaltKind.exit, [errRec ("Failed to fetch URL " ++ "http://a.example/list")]⟩ rfl

/-- C2 counterexample: in a two-source run whose first source's GET fails,
the run aborts (SystemExit from the ERROR record) with no write, although
the second source on its own would have contributed one item — the run
does not continue with the remaining sources. -/
theorem source_failure_counterexample :
    (get_design_examples w2 none none
        ["http://a.example/list", "http://b.example/list"]).halted
      = some HaltKind.exit
    ∧ (get_design_examples w2 none none
        ["http://a.example/list", "http://b.example/list"]).written = none
    ∧ processUrl w2 ⟨"http://b.example/list", [], "", ""⟩
        = Except.ok ([JVal.obj [("downloadUrl", JVal.str "x"),
            ("rich_description", JVal.str "d"), ("Q_DOWNLOAD_URL", JVal.str "x")]],
            [infoRec "Found design examples in this non GitHub URL"]) :=
  ⟨rfl, rfl, rfl⟩

/-- C5: whenever the configured sources together contribute zero items, the
merge and persist steps are skipped, no output file is written, and the
run terminates with a fatal error. -/
theorem zero_items_fatal (w : World) (controller : Option (List (String × JVal)))
    (existing : Option JVal) (urls : List String)
    (h : ∀ items logs, runUrlsAux w (get_unique_urls (extract_url_details urls)) [] []
        = Except.ok (items, logs) → items = []) :
    (get_design_examples w controller existing urls).written = none
    ∧ (get_design_examples w controller existing urls).halted.isSome = true := by
  cases hr : runUrlsAux w (get_unique_urls (extract_url_details urls)) [] [] with
  | error hh => constructor <;> simp [get_design_examples, hr]
  | ok pr =>
    obtain ⟨items, logs⟩ := pr
    have hi : items = [] := h items logs hr
    subst hi
    constructor <;> simp [get_design_examples, hr]

/-- Witness for `zero_items_fatal`: a run with no configured sources
aggregates zero items, writes nothing and aborts. -/
theorem zero_items_fatal_witness :
    (get_design_examples w0 none none []).written = none
    ∧ (get_design_examples w0 none none []).halted.isSome = true :=
  zero_items_fatal w0 none none [] (fun items logs hh => by
    simp only [extract_url_details, List.map_nil, get_unique_urls,
      get_unique_urls_aux, runUrlsAux, Except.ok.injEq, Prod.mk.injEq] at hh
    exact hh.1.symm)

/-! ## URL resolution (claim C8) -/

theorem splitChar_ne_nil (sep : Char) (cs : List Char) : splitChar sep cs ≠ [] := by
  cases cs with
  | nil => simp [splitChar]
  | cons c rest =>
    cases h : c == sep
    · simp only [splitChar, h, Bool.false_eq_true, if_false]
      cases splitChar sep rest <;> simp
    · simp [splitChar, h]

theorem splitChar_two_iff (sep : Char) (cs : List Char) :
    2 ≤ (splitChar sep cs).length ↔ sep ∈ cs := by
  induction cs with
  | nil => simp [splitChar]
  | cons c rest ih =>
    cases h : c == sep
    · have hne : c ≠ sep := by simpa using h
      simp only [splitChar, h, Bool.false_eq_true, if_false]
      cases hs : splitChar sep rest with
      | nil => exact absurd hs (splitChar_ne_nil sep rest)
      | cons p ps =>
        rw [hs] at ih
        simp only [List.length_cons] at ih ⊢
        rw [List.mem_cons]
        constructor
        · intro hl
          exact Or.inr (ih.mp hl)
        · intro hm
          rcases hm with hm | hm
          · exact absurd hm.symm hne
          · exact ih.mpr hm
    · have hc : c = sep := by simpa using h
      subst hc
      simp only [splitChar, beq_self_eq_true, if_true, List.length_cons]
      constructor
      · intro _
        exact List.mem_cons_self _ _
      · intro _
        have h1 := splitChar_ne_nil c rest
        have h2 : 0 < (splitChar c rest).length := List.length_pos.mpr h1
        omega

/-- C8 amended: the resolver sets owner and name to the first two
`/`-separated segments of the stripped path — segments that may be empty
strings — exactly when the stripped path still contains a `/` (equivalently
splits into at least two segments, empty or not); otherwise both are empty
strings. -/
theorem resolver_segments_amended (url : String) :
    (('/' : Char) ∈ (urlparse_path url).data.dropWhile (fun c => c == '/') →
      (extract_url_detail url).repo_owner
          = String.mk ((splitChar '/'
              ((urlparse_path url).data.dropWhile (fun c => c == '/'))).getD 0 [])
        ∧ (extract_url_detail url).repo_name
          = String.mk ((splitChar '/'
              ((urlparse_path url).data.dropWhile (fun c => c == '/'))).getD 1 []))
    ∧ (('/' : Char) ∉ (urlparse_path url).data.dropWhile (fun c => c == '/') →
      (extract_url_detail url).repo_owner = ""
        ∧ (extract_url_detail url).repo_name = "") := by
  constructor
  · intro hmem
    have hlen := (splitChar_two_iff '/'
      ((urlparse_path url).data.dropWhile (fun c => c == '/'))).mpr hmem
    simp only [extract_url_detail]
    rw [if_pos hlen]
    exact ⟨rfl, rfl⟩
  · intro hmem
    have hlen : ¬ 2 ≤ (splitChar '/'
        ((urlparse_path url).data.dropWhile (fun c => c == '/'))).length :=
      fun hl => hmem ((splitChar_two_iff _ _).mp hl)
    simp only [extract_url_detail]
    rw [if_neg hlen]
    exact ⟨rfl, rfl⟩

/-- C8 counterexample: for `https://host.example/a/` the stripped path `a/`
has exactly one non-empty segment, so the claim dictates that owner and
name are both empty — yet the resolver (which counts segments including
empty ones) sets the owner to `a` and the name to the empty string. -/
theorem resolver_segments_counterexample :
    ((splitChar '/' ((urlparse_path "https://host.example/a/").data.dropWhile
        (fun c => c == '/'))).filter (fun s => !s.isEmpty)).length = 1
    ∧ (extract_url_detail "https://host.example/a/").repo_owner = "a"
    ∧ (extract_url_detail "https://host.example/a/").repo_name = "" :=
  ⟨rfl, rfl, rfl⟩

/-- Witness for `resolver_segments_amended` on a URL with two non-empty
path segments. -/
theorem resolver_segments_amended_witness :
    (extract_url_detail "https://github.com/intel/example").repo_owner = "intel"
    ∧ (extract_url_detail "https://github.com/intel/example").repo_name = "example" := by
  have h := (resolver_segments_amended "https://github.com/intel/example").1 (by decide)
  exact ⟨h.1.trans rfl, h.2.trans rfl⟩

/-! ## Image URL rewriting (claim C3) -/

theorem takeWhile_append_of (p : Char → Bool) (u : List Char) (b : Char) (r : List Char)
    (hu : ∀ c ∈ u, p c = true) (hb : p b = false) :
    (u ++ b :: r).takeWhile p = u := by
  induction u with
  | nil => simp [List.takeWhile_cons, hb]
  | cons c cs ih =>
    rw [List.cons_append, List.takeWhile_cons, hu c (List.mem_cons_self _ _)]
    simp only [if_true]
    rw [ih (fun d hd => hu d (List.mem_cons_of_mem _ hd))]

theorem dropWhile_append_of (p : Char → Bool) (u : List Char) (b : Char) (r : List Char)
    (hu : ∀ c ∈ u, p c = true) (hb : p b = false) :
    (u ++ b :: r).dropWhile p = b :: r := by
  induction u with
  | nil => simp [List.dropWhile_cons, hb]
  | cons c cs ih =>
    rw [List.cons_append, List.dropWhile_cons, hu c (List.mem_cons_self _ _)]
    simp only [if_true]
    exact ih (fun d hd => hu d (List.mem_cons_of_mem _ hd))

theorem span_append_of (p : Char → Bool) (u : List Char) (b : Char) (r : List Char)
    (hu : ∀ c ∈ u, p c = true) (hb : p b = false) :
    (u ++ b :: r).span p = (u, b :: r) := by
  rw [List.span_eq_take_drop, takeWhile_append_of p u b r hu hb,
    dropWhile_append_of p u b r hu hb]

theorem matchQuoted_ok (u r : List Char) (h1 : ∀ c ∈ u, c ≠ '"') (hne : u ≠ []) :
    matchQuoted (u ++ '"' :: r) = some (u, r) := by
  unfold matchQuoted
  rw [span_append_of (fun c => !(c == '"')) u '"' r
      (fun c hc => by simpa using h1 c hc) (by simp)]
  have : u.isEmpty = false := by
    cases u with
    | nil => exact absurd rfl hne
    | cons a as => rfl
  simp [this]

theorem matchToGt_gt (r : List Char) : matchToGt ('>' :: r) = some r := by
  unfold matchToGt
  have h := span_append_of (fun c => !(c == '>')) [] '>' r (by simp) (by simp)
  rw [List.nil_append] at h
  rw [h]
  rfl

theorem matchSrcTail_ok (u r : List Char) (h1 : ∀ c ∈ u, c ≠ '"') (hne : u ≠ []) :
    matchSrcTail (srcLit ++ (u ++ '"' :: '>' :: r)) = some (u, r) := by
  unfold matchSrcTail
  rw [if_pos (List.isPrefixOf_iff_prefix.mpr ⟨u ++ '"' :: '>' :: r, rfl⟩)]
  rw [List.drop_left, matchQuoted_ok u ('>' :: r) h1 hne]
  show (match matchToGt ('>' :: r) with
        | some r2 => some (u, r2)
        | none => none) = some (u, r)
  rw [matchToGt_gt]

theorem matchSrcTail_none (cs : List Char) (h : srcLit.isPrefixOf cs = false) :
    matchSrcTail cs = none := by
  unfold matchSrcTail
  simp [h]

theorem matchBody_cons (c : Char) (rest : List Char) :
    matchBody (c :: rest)
      = if c == '>' then matchSrcTail (c :: rest)
        else match matchBody rest with
          | some res => some res
          | none => matchSrcTail (c :: rest) := rfl

theorem matchBody_none (r : List Char) :
    ∀ v : List Char, (∀ c ∈ v, c ≠ '"' ∧ c ≠ '>') →
      (∀ w, w <:+ v → srcLit.isPrefixOf (w ++ '"' :: '>' :: r) = false) →
      matchBody (v ++ '"' :: '>' :: r) = none := by
  intro v
  induction v with
  | nil =>
    intro _ _
    rw [List.nil_append, matchBody_cons, if_neg (by decide)]
    rw [show matchBody ('>' :: r) = matchSrcTail ('>' :: r) from by
      rw [matchBody_cons, if_pos (by decide)]]
    rw [matchSrcTail_none ('>' :: r) rfl]
    exact matchSrcTail_none _ rfl
  | cons c v' ih =>
    intro hc hw
    have hc1 := hc c (List.mem_cons_self _ _)
    rw [List.cons_append, matchBody_cons, if_neg (by simpa using hc1.2)]
    rw [ih (fun d hd => hc d (List.mem_cons_of_mem _ hd))
        (fun w hwsuf => hw w (hwsuf.trans (List.suffix_cons c v')))]
    exact matchSrcTail_none _ (by
      have h2 := hw (c :: v') (List.suffix_refl _)
      rw [List.cons_append] at h2
      exact h2)

theorem no_later_src (u : List Char) (r : List Char)
    (h1 : ∀ c ∈ u, c ≠ '"')
    (h4 : ¬ (['s', 'r', 'c', '='] <:+ u)) :
    ∀ w, w <:+ u → srcLit.isPrefixOf (w ++ '"' :: '>' :: r) = false := by
  intro w hw
  match w with
  | [] => rfl
  | [a] =>
    show srcLit.isPrefixOf (a :: '"' :: '>' :: r) = false
    simp [srcLit, List.isPrefixOf]
  | [a, b] =>
    show srcLit.isPrefixOf (a :: b :: '"' :: '>' :: r) = false
    simp [srcLit, List.isPrefixOf]
  | [a, b, c] =>
    show srcLit.isPrefixOf (a :: b :: c :: '"' :: '>' :: r) = false
    simp [srcLit, List.isPrefixOf]
  | [a, b, c, d] =>
    show srcLit.isPrefixOf (a :: b :: c :: d :: '"' :: '>' :: r) = false
    by_contra hfalse
    have htrue : srcLit.isPrefixOf (a :: b :: c :: d :: '"' :: '>' :: r) = true := by
      cases hx : srcLit.isPrefixOf (a :: b :: c :: d :: '"' :: '>' :: r)
      · exact absurd hx hfalse
      · rfl
    simp only [srcLit, List.isPrefixOf, Bool.and_eq_true, beq_iff_eq] at htrue
    obtain ⟨ha, hb, hcc, hd, -⟩ := htrue
    subst ha
    subst hb
    subst hcc
    subst hd
    exact h4 hw
  | a :: b :: c :: d :: e :: rest =>
    show srcLit.isPrefixOf (a :: b :: c :: d :: e :: (rest ++ '"' :: '>' :: r)) = false
    have he : e ∈ u := hw.subset (by simp)
    have he2 : ('"' == e) = false := by
      have := h1 e he
      simpa using (Ne.symm this)
    simp [srcLit, List.isPrefixOf, he2]

theorem matchBody_src (u r : List Char)
    (h1 : ∀ c ∈ u, c ≠ '"') (hg : ∀ c ∈ u, c ≠ '>') (hne : u ≠ [])
    (h4 : ¬ (['s', 'r', 'c', '='] <:+ u)) :
    matchBody (srcLit ++ (u ++ '"' :: '>' :: r)) = some (u, r) := by
  have hnone : matchBody (u ++ '"' :: '>' :: r) = none :=
    matchBody_none r u (fun c hc => ⟨h1 c hc, hg c hc⟩) (no_later_src u r h1 h4)
  have lvl1 : matchBody ('"' :: (u ++ '"' :: '>' :: r)) = none := by
    rw [matchBody_cons, if_neg (by decide), hnone]
    exact matchSrcTail_none _ rfl
  have lvl2 : matchBody ('=' :: '"' :: (u ++ '"' :: '>' :: r)) = none := by
    rw [matchBody_cons, if_neg (by decide), lvl1]
    exact matchSrcTail_none _ rfl
  have lvl3 : matchBody ('c' :: '=' :: '"' :: (u ++ '"' :: '>' :: r)) = none := by
    rw [matchBody_cons, if_neg (by decide), lvl2]
    exact matchSrcTail_none _ rfl
  have lvl4 : matchBody ('r' :: 'c' :: '=' :: '"' :: (u ++ '"' :: '>' :: r)) = none := by
    rw [matchBody_cons, if_neg (by decide), lvl3]
    exact matchSrcTail_none _ rfl
  show matchBody ('s' :: 'r' :: 'c' :: '=' :: '"' :: (u ++ '"' :: '>' :: r)) = some (u, r)
  rw [matchBody_cons, if_neg (by decide), lvl4]
  exact matchSrcTail_ok u r h1 hne

theorem matchImgTag_ok (u r : List Char)
    (h1 : ∀ c ∈ u, c ≠ '"') (hg : ∀ c ∈ u, c ≠ '>') (hne : u ≠ [])
    (h4 : ¬ (['s', 'r', 'c', '='] <:+ u)) :
    matchImgTag (imgLit ++ (srcLit ++ (u ++ '"' :: '>' :: r))) = some (u, r) := by
  unfold matchImgTag
  rw [if_pos (List.isPrefixOf_iff_prefix.mpr ⟨srcLit ++ (u ++ '"' :: '>' :: r), rfl⟩)]
  rw [List.drop_left]
  exact matchBody_src u r h1 hg hne h4

theorem subAux_nil (repo : String) (fuel : Nat) : subAux repo fuel [] = [] := by
  cases fuel <;> rfl

theorem subAux_cons (repo : String) (fuel : Nat) (c : Char) (rest : List Char) :
    subAux repo (fuel + 1) (c :: rest)
      = match matchImgTag (c :: rest) with
        | some (g, rem) =>
          (replace_with_raw repo
            (String.mk ((c :: rest).take ((c :: rest).length - rem.length)))
            (String.mk g)).data ++ subAux repo fuel rem
        | none => c :: subAux repo fuel rest := rfl

theorem subAux_single_tag (repo : String) (u : List Char) (fuel : Nat)
    (h1 : ∀ c ∈ u, c ≠ '"') (hg : ∀ c ∈ u, c ≠ '>') (hne : u ≠ [])
    (h4 : ¬ (['s', 'r', 'c', '='] <:+ u)) :
    subAux repo (fuel + 1) (imgLit ++ (srcLit ++ (u ++ ['"', '>'])))
      = (replace_with_raw repo
          (String.mk (imgLit ++ (srcLit ++ (u ++ ['"', '>'])))) (String.mk u)).data := by
  show subAux repo (fuel + 1)
      ('<' :: ('i' :: 'm' :: 'g' :: ' ' :: (srcLit ++ (u ++ ['"', '>'])))) = _
  rw [subAux_cons]
  rw [show ('<' :: ('i' :: 'm' :: 'g' :: ' ' :: (srcLit ++ (u ++ ['"', '>']))))
        = imgLit ++ (srcLit ++ (u ++ ['"', '>'])) from rfl]
  rw [matchImgTag_ok u [] h1 hg hne h4]
  simp only [List.length_nil, Nat.sub_zero, List.take_length, subAux_nil, List.append_nil]

theorem subAux_no_lt (repo : String) :
    ∀ (fuel : Nat) (cs : List Char), ('<' : Char) ∉ cs → subAux repo fuel cs = cs := by
  intro fuel
  induction fuel with
  | zero => intro cs _; rfl
  | succ n ih =>
    intro cs h
    cases cs with
    | nil => rfl
    | cons c rest =>
      have hc : ('<' == c) = false := by
        have : c ≠ '<' := fun hh => h (hh ▸ List.mem_cons_self _ _)
        simpa using (Ne.symm this)
      rw [subAux_cons]
      rw [show matchImgTag (c :: rest) = none from by
        unfold matchImgTag
        rw [if_neg (by simp [imgLit, List.isPrefixOf, hc])]]
      rw [ih rest (fun hm => h (List.mem_cons_of_mem _ hm))]

/-- C3 amended: the rewriter replaces the `src` of a well-formed image tag
exactly when the URL contains `github.com` anywhere as a substring (the
code's `is_github` test — not a test of the URL's host) and contains the
repo id as a substring; the replacement is the raw-content conversion
applied via string replacement inside the tag; text without `<` passes
through verbatim.  (The hypotheses keep the tag well-formed for the
pattern: the URL has no quote or `>` and does not end in `src=`.) -/
theorem image_rewrite_amended (u repo : String)
    (h1 : ('"' : Char) ∉ u.data) (h2 : ('>' : Char) ∉ u.data) (h3 : u ≠ "")
    (h4 : ¬ (['s', 'r', 'c', '='] <:+ u.data)) :
    (use_raw_image_url ("<img src=\"" ++ u ++ "\">") repo
      = if is_github u && containsSub repo.data u.data
        then replaceAll ("<img src=\"" ++ u ++ "\">") u (convert_to_raw_github_url u)
        else "<img src=\"" ++ u ++ "\">")
    ∧ ∀ t : String, ('<' : Char) ∉ t.data → use_raw_image_url t repo = t := by
  have hne : u.data ≠ [] := fun hd =>
    h3 (by rw [show u = String.mk u.data from rfl, hd])
  have h1' : ∀ c ∈ u.data, c ≠ '"' := fun c hc hh => h1 (hh ▸ hc)
  have hg' : ∀ c ∈ u.data, c ≠ '>' := fun c hc hh => h2 (hh ▸ hc)
  have hdata : ("<img src=\"" ++ u ++ "\">").data
      = imgLit ++ (srcLit ++ (u.data ++ ['"', '>'])) := by
    show ("<img src=\"".data ++ u.data) ++ "\">".data
        = imgLit ++ (srcLit ++ (u.data ++ ['"', '>']))
    rw [show "<img src=\"".data = imgLit ++ srcLit from rfl,
      show "\">".data = ['"', '>'] from rfl]
    simp [List.append_assoc]
  constructor
  · have hlen : (imgLit ++ (srcLit ++ (u.data ++ ['"', '>']))).length
        = (u.data.length + 11) + 1 := by
      simp [imgLit, srcLit]
    calc use_raw_image_url ("<img src=\"" ++ u ++ "\">") repo
        = String.mk (subAux repo ((u.data.length + 11) + 1)
            (imgLit ++ (srcLit ++ (u.data ++ ['"', '>'])))) := by
          unfold use_raw_image_url
          rw [hdata, hlen]
      _ = String.mk ((replace_with_raw repo
            (String.mk (imgLit ++ (srcLit ++ (u.data ++ ['"', '>']))))
            (String.mk u.data)).data) := by
          rw [subAux_single_tag repo u.data (u.data.length + 11) h1' hg' hne h4]
      _ = replace_with_raw repo ("<img src=\"" ++ u ++ "\">") u := by
          rw [← hdata]
      _ = if is_github u && containsSub repo.data u.data
          then replaceAll ("<img src=\"" ++ u ++ "\">") u (convert_to_raw_github_url u)
          else "<img src=\"" ++ u ++ "\">" := rfl
  · intro t ht
    show String.mk (subAux repo t.data.length t.data) = t
    rw [subAux_no_lt repo t.data.length t.data ht]

/-- Witness for `image_rewrite_amended`: the claim's own example, with repo
id `intel/example`, rewrites the blob URL to its raw-content form. -/
theorem image_rewrite_amended_witness :
    use_raw_image_url
        ("<img src=\"" ++ "https://github.com/intel/example/blob/main/x.png" ++ "\">")
        "intel/example"
      = "<img src=\"https://raw.githubusercontent.com/intel/example/main/x.png\">" :=
  ((image_rewrite_amended "https://github.com/intel/example/blob/main/x.png"
      "intel/example" (by decide) (by decide) (by decide) (by decide)).1).trans (by decide)

/-- The host component of a URL, following the spec's words ("the URL's
host"): the text between the first `://` and the next `/`.  Used only to
compare the spec's host condition with the code's substring condition. -/
def spec_url_host (url : String) : String :=
  String.mk ((afterFirst "://".data url.data).takeWhile (fun c => !(c == '/')))

/-- C3 counterexample: an image URL whose host is `evil.example` — not
GitHub — but which contains `github.com` and the repo id in its path, is
rewritten by the code (to a raw URL proxying the untrusted path), although
the claim's host condition dictates the tag be left unmodified. -/
theorem image_rewrite_counterexample :
    spec_url_host "https://evil.example/github.com/intel/example/blob/main/x.png"
      = "evil.example"
    ∧ use_raw_image_url
        "<img src=\"https://evil.example/github.com/intel/example/blob/main/x.png\">"
        "intel/example"
      = "<img src=\"https://raw.githubusercontent.com/intel/example/main/x.png\">"
    ∧ ("<img src=\"https://raw.githubusercontent.com/intel/example/main/x.png\">" : String)
      ≠ "<img src=\"https://evil.example/github.com/intel/example/blob/main/x.png\">" :=
  ⟨rfl, by decide, by decide⟩
